import Mathlib

set_option maxRecDepth 20000

/-!
# attr_check: HSM migration state from GPFS DMAPI attributes

A shallow embedding of `src/attr_check/attr_check.cpp`.

* A C `char` is modelled by its integer value (`Int`); a `char*` buffer is the list of the
  chars of the allocated block, so a read at an index outside the list is a read outside
  the block.
* `clean` is the sanitising loop; it yields `none` when the loop reads outside the block.
* `attr_check` is run against a `World` that answers the two external calls (`fopen` and
  the vendor call `gpfs_fgetattrs`), and yields a `Run`: how the call ended and the
  sequence of library calls it made.
-/

namespace AttrCheck

/-! ## Library functions used by the program -/

/-- The C library `isprint` in the default "C" locale (the program never sets a locale):
true exactly for the character codes 0x20 .. 0x7E.  The classification table of the library
covers every `char` value, the negative ones of a signed `char` included, and holds false
outside that range. -/
def isprint (c : Int) : Bool :=
  decide (0x20 ≤ c ∧ c ≤ 0x7E)

/-- The value of the byte `b` (0x00 .. 0xFF) read through a `char` lvalue where `char` is
signed: bytes from 0x80 on are negative. -/
def signedChar (b : Nat) : Int :=
  if b % 256 < 128 then ((b % 256 : Nat) : Int) else ((b % 256 : Nat) : Int) - 256

/-- The character `|` (0x7C) pushed by `clean` for the control value 1. -/
def bar : Int := 0x7C

/-- Search of `std::string::find`: `find pat str pos` is the position of the first
occurrence of `pat` in `str`, positions being counted from `pos` at the head of `str`;
`none` stands for `string::npos`. -/
def find (pat : List Int) : List Int → Nat → Option Nat
  | [], pos => if pat.isPrefixOf [] then some pos else none
  | c :: s, pos => if pat.isPrefixOf (c :: s) then some pos else find pat s (pos + 1)

/-- The marker "IBMTPS" as character codes. -/
def IBMTPS : List Int := [73, 66, 77, 84, 80, 83]

/-- The marker "IBMPMig" as character codes. -/
def IBMPMig : List Int := [73, 66, 77, 80, 77, 105, 103]

/-! ## `clean` -/

/-- Body of the loop of `clean` for the char `c = buf[i]`: two independent tests, the first
pushes `c` when it is printable, the second pushes `|` when `(int)c == 1`. -/
def cleanBody (c : Int) (v : List Int) : List Int :=
  let v1 := if isprint c then v ++ [c] else v
  if c = 1 then v1 ++ [bar] else v1

/-- The loop `for (int i = 0; i < size; i++)` of `clean`, with `n = size - i` iterations
still to run, the index `i` and the vector `v` built so far.  Reading `buf[i]` outside the
block gives `none`. -/
def cleanLoop (buf : List Int) : Nat → Nat → List Int → Option (List Int)
  | 0, _, v => some v
  | n + 1, i, v =>
    match buf[i]? with
    | none => none
    | some c => cleanLoop buf n (i + 1) (cleanBody c v)

/-- The function `vector<char> clean(char* buf, int size)`.  A `size` that is zero or negative
runs no iteration. -/
def clean (buf : List Int) (size : Int) : Option (List Int) :=
  cleanLoop buf size.toNat 0 []

/-- The sanitiser as the specification words it: of the first `L` bytes keep those that are
printable or equal to 0x01, in order, and write `|` for each 0x01. -/
def cleanSpec (B : List Int) (L : Nat) : List Int :=
  ((B.take L).filter (fun c => isprint c || c == 1)).map (fun c => if c = 1 then bar else c)

/-- What one iteration of the loop of `clean` pushes for the char `c` (see `cleanBody_eq`). -/
def emit (c : Int) : List Int :=
  if isprint c || c == 1 then [if c = 1 then bar else c] else []

/-! ## `attr_check` -/

/-- An open `FILE*`; `fileno` of it is `fd`. -/
structure FILE where
  fd : Int
deriving DecidableEq

/-- What `gpfs_fgetattrs` leaves behind: its status code, the contents of the caller's
buffer and the value stored through `attrSizeP`. -/
structure FetchResult where
  rc : Int
  buffer : List Int
  attrSize : Int
deriving DecidableEq

/-- The environment of one call of `attr_check`: the header constant
`GPFS_ATTRFLAG_INCL_DMAPI`, the answer of `fopen(path, "rb")` (`none` is a null pointer),
and the vendor call, a function of the descriptor, the flags, the buffer contents, the
buffer size and the initial `attrSize`. -/
structure World where
  GPFS_ATTRFLAG_INCL_DMAPI : Int
  fopen : List Int → Option FILE
  gpfs_fgetattrs : Int → Int → List Int → Nat → Int → FetchResult

/-- A library call made by `attr_check`. -/
inductive Call
  | fopen (path : List Int) (result : Option FILE)
  | calloc (count size : Nat)
  | fileno (f : Option FILE)
  | gpfs_fgetattrs (fd : Int)
  | fclose (f : FILE)
deriving DecidableEq

/-- How a call of `attr_check` ends: it returns a code, or it passes a null `FILE*` to
`fileno`, or `clean` reads outside the attribute buffer (both undefined behaviour). -/
inductive Outcome
  | returned (code : Int)
  | nullDeref
  | outOfBounds
deriving DecidableEq

/-- The result of running `attr_check`: the outcome and the library calls made, in order. -/
structure Run where
  outcome : Outcome
  calls : List Call
deriving DecidableEq

/-- The function `int attr_check(char* path)`, allocation assumed to succeed. -/
def attr_check (w : World) (path : List Int) : Run :=
  let f := w.fopen path
  let buffer : List Int := List.replicate 1024 0
  let attrSize : Int := 0
  let opened := [Call.fopen path f, Call.calloc 1024 1]
  match f with
  | none => ⟨Outcome.nullDeref, opened ++ [Call.fileno none]⟩
  | some file =>
    let r := w.gpfs_fgetattrs file.fd w.GPFS_ATTRFLAG_INCL_DMAPI buffer 1024 attrSize
    let fetched := opened ++ [Call.fileno (some file), Call.gpfs_fgetattrs file.fd]
    match clean r.buffer r.attrSize with
    | none => ⟨Outcome.outOfBounds, fetched⟩
    | some vectorized_buf =>
      let str := vectorized_buf.foldl (fun s c => s ++ [c]) []
      if (find IBMTPS str 0).isSome then
        if (find IBMPMig str 0).isSome then
          ⟨Outcome.returned 1, fetched⟩
        else
          ⟨Outcome.returned 2, fetched⟩
      else
        ⟨Outcome.returned 0, fetched ++ [Call.fclose file]⟩

/-- The vendor call as `attr_check` makes it on the open file: zeroed 1024-byte buffer,
buffer size 1024, `attrSize` initially 0. -/
def fetch (w : World) (file : FILE) : FetchResult :=
  w.gpfs_fgetattrs file.fd w.GPFS_ATTRFLAG_INCL_DMAPI (List.replicate 1024 0) 1024 0

/-- The number of `fclose` calls in a sequence of library calls. -/
def fcloseCount (calls : List Call) : Nat :=
  calls.countP (fun c => match c with | Call.fclose _ => true | _ => false)

/-- A world in which every path opens (descriptor 3) and the vendor call reports success,
stores `blob` at the start of the 1024-byte buffer and reports `size` bytes. -/
def worldOf (blob : List Int) (size : Int) : World where
  GPFS_ATTRFLAG_INCL_DMAPI := 8
  fopen := fun _ => some ⟨3⟩
  gpfs_fgetattrs := fun _ _ buffer _ _ => ⟨0, blob ++ buffer.drop blob.length, size⟩

/-- A world in which no path opens. -/
def worldNoFile : World where
  GPFS_ATTRFLAG_INCL_DMAPI := 8
  fopen := fun _ => none
  gpfs_fgetattrs := fun _ _ buffer _ attrSize => ⟨-1, buffer, attrSize⟩

/-- The world `w` with the status code of the vendor call replaced by `rc`. -/
def withRc (w : World) (rc : Int) : World where
  GPFS_ATTRFLAG_INCL_DMAPI := w.GPFS_ATTRFLAG_INCL_DMAPI
  fopen := w.fopen
  gpfs_fgetattrs := fun fd flags buffer size attrSize =>
    ⟨rc, (w.gpfs_fgetattrs fd flags buffer size attrSize).buffer,
      (w.gpfs_fgetattrs fd flags buffer size attrSize).attrSize⟩

/-- A world in which every path opens and the attributes need `needed` bytes, more than the
buffer holds: the vendor call fails (-1, `ENOSPC`), leaves the buffer as it is and stores
the size needed through `attrSizeP`. -/
def worldTooSmall (needed : Int) : World where
  GPFS_ATTRFLAG_INCL_DMAPI := 8
  fopen := fun _ => some ⟨3⟩
  gpfs_fgetattrs := fun _ _ buffer _ _ => ⟨-1, buffer, needed⟩

/-- A world in which every path opens and the vendor call fails with status `rc`, leaving
the buffer and `attrSize` as they were. -/
def worldFetchFails (rc : Int) : World where
  GPFS_ATTRFLAG_INCL_DMAPI := 8
  fopen := fun _ => some ⟨3⟩
  gpfs_fgetattrs := fun _ _ buffer _ attrSize => ⟨rc, buffer, attrSize⟩

/-! ## Lemmas -/

theorem isprint_one : isprint 1 = false := by decide

theorem isprint_bar : isprint bar = true := by decide

theorem cleanBody_eq (c : Int) (v : List Int) : cleanBody c v = v ++ emit c := by
  unfold cleanBody emit
  by_cases h1 : c = 1
  · subst h1
    simp [isprint_one]
  · by_cases hp : isprint c = true
    · simp [h1, hp]
    · simp [h1, hp]

theorem filter_map_cons (c : Int) (l : List Int) :
    ((c :: l).filter (fun c => isprint c || c == 1)).map (fun c => if c = 1 then bar else c)
      = emit c ++ (l.filter (fun c => isprint c || c == 1)).map
          (fun c => if c = 1 then bar else c) := by
  unfold emit
  by_cases hk : (isprint c || c == 1) = true
  · simp [List.filter_cons, hk]
  · simp [List.filter_cons, hk]

theorem cleanLoop_eq (buf : List Int) :
    ∀ (n i : Nat) (v : List Int), i + n ≤ buf.length →
      cleanLoop buf n i v = some (v ++ cleanSpec (buf.drop i) n) := by
  intro n
  induction n with
  | zero =>
    intro i v _
    simp [cleanLoop, cleanSpec]
  | succ n ih =>
    intro i v h
    have hi : i < buf.length := by omega
    have hd : buf.drop i = buf[i] :: buf.drop (i + 1) := List.drop_eq_getElem_cons hi
    have hrec := ih (i + 1) (cleanBody buf[i] v) (by omega)
    have hs : cleanSpec (buf.drop i) (n + 1) = emit buf[i] ++ cleanSpec (buf.drop (i + 1)) n := by
      unfold cleanSpec
      rw [hd, List.take_succ_cons, filter_map_cons]
    simp only [cleanLoop, List.getElem?_eq_getElem hi]
    rw [hrec, hs, cleanBody_eq, List.append_assoc]

theorem clean_eq_cleanSpec (B : List Int) (L : Nat) (h : L ≤ B.length) :
    clean B (L : Int) = some (cleanSpec B L) := by
  unfold clean
  rw [Int.toNat_ofNat, cleanLoop_eq B L 0 [] (by omega)]
  simp

theorem find_isSome_iff (pat : List Int) :
    ∀ (str : List Int) (pos : Nat), (find pat str pos).isSome = true ↔ pat <:+: str := by
  intro str
  induction str with
  | nil =>
    intro pos
    cases pat with
    | nil => simp [find]
    | cons a p => simp [find, List.isPrefixOf]
  | cons c s ih =>
    intro pos
    unfold find
    by_cases hp : pat.isPrefixOf (c :: s) = true
    · rw [if_pos hp]
      have hpre : pat <+: c :: s := List.isPrefixOf_iff_prefix.mp hp
      simp [hpre.isInfix]
    · rw [if_neg hp, ih (pos + 1), List.infix_cons_iff]
      have hpre : ¬ pat <+: c :: s := fun h => hp (List.isPrefixOf_iff_prefix.mpr h)
      simp [hpre]

theorem foldl_push (l : List Int) :
    ∀ s : List Int, l.foldl (fun s c => s ++ [c]) s = s ++ l := by
  induction l with
  | nil => intro s; simp
  | cons a l ih => intro s; simp [ih]

/-- What `attr_check` does once the file is open and the sanitised text is `text`. -/
theorem attr_check_opened (w : World) (path : List Int) (file : FILE) (text : List Int)
    (hf : w.fopen path = some file)
    (hc : clean (fetch w file).buffer (fetch w file).attrSize = some text) :
    attr_check w path =
      if (find IBMTPS text 0).isSome then
        if (find IBMPMig text 0).isSome then
          ⟨Outcome.returned 1, [Call.fopen path (some file), Call.calloc 1024 1,
            Call.fileno (some file), Call.gpfs_fgetattrs file.fd]⟩
        else
          ⟨Outcome.returned 2, [Call.fopen path (some file), Call.calloc 1024 1,
            Call.fileno (some file), Call.gpfs_fgetattrs file.fd]⟩
      else
        ⟨Outcome.returned 0, [Call.fopen path (some file), Call.calloc 1024 1,
          Call.fileno (some file), Call.gpfs_fgetattrs file.fd, Call.fclose file]⟩ := by
  unfold fetch at hc
  unfold attr_check
  simp only [hf, hc, foldl_push, List.nil_append, List.cons_append]

theorem cleanLoop_none (buf : List Int) :
    ∀ (n i : Nat) (v : List Int), i ≤ buf.length → buf.length < i + n →
      cleanLoop buf n i v = none := by
  intro n
  induction n with
  | zero => intro i v h1 h2; omega
  | succ n ih =>
    intro i v h1 h2
    by_cases hi : i < buf.length
    · simp only [cleanLoop, List.getElem?_eq_getElem hi]
      exact ih (i + 1) _ (by omega) (by omega)
    · have hnone : buf[i]? = none := List.getElem?_eq_none (by omega)
      simp only [cleanLoop, hnone]

theorem cleanSpec_take (B : List Int) (L : Nat) : cleanSpec (B.take L) L = cleanSpec B L := by
  unfold cleanSpec
  rw [List.take_take, Nat.min_self]

theorem cleanSpec_of_take_eq (B : List Int) (L : Nat) (l1 l2 : List Int)
    (h : B.take L = l1 ++ l2) :
    cleanSpec B L = cleanSpec l1 l1.length ++ cleanSpec l2 l2.length := by
  unfold cleanSpec
  rw [h, List.take_length, List.take_length, List.filter_append, List.map_append]

theorem mem_cleanSpec (B : List Int) (L : Nat) (c : Int) (hc : c ∈ cleanSpec B L) :
    isprint c = true ∨ c = bar := by
  unfold cleanSpec at hc
  rcases List.mem_map.mp hc with ⟨a, ha, rfl⟩
  by_cases h1 : a = 1
  · right; simp [h1]
  · left
    have hk := (List.mem_filter.mp ha).2
    simpa [h1] using hk

theorem cleanSpec_length_le (B : List Int) (L : Nat) : (cleanSpec B L).length ≤ L := by
  unfold cleanSpec
  rw [List.length_map]
  exact le_trans (List.length_filter_le _ _) (by simp)

theorem count_range (p : Int → Bool) (B : List Int) :
    ∀ i : Nat, i ≤ B.length →
      ((List.range i).filter (fun j => (B[j]?).any p)).length = ((B.take i).filter p).length := by
  intro i
  induction i with
  | zero => intro _; simp
  | succ i ih =>
    intro h
    have hi : i < B.length := by omega
    rw [List.range_succ, List.filter_append, List.length_append, ih (by omega),
      List.take_succ, List.filter_append, List.length_append, List.getElem?_eq_getElem hi]
    by_cases hp : p B[i] = true
    · simp [hp, List.filter_cons, List.getElem?_eq_getElem hi]
    · simp [hp, List.filter_cons, List.getElem?_eq_getElem hi]

/-! ## Classification by marker -/

/-- C1: when the file opens and the sanitised text `clean(buffer, attrSize)` of the vendor's
buffer contains "IBMTPS" and does not contain "IBMPMig", `attr_check` returns 2 (migrated). -/
theorem attr_check_migrated (w : World) (path : List Int) (file : FILE) (text : List Int)
    (hf : w.fopen path = some file)
    (hc : clean (fetch w file).buffer (fetch w file).attrSize = some text)
    (h1 : IBMTPS <:+: text) (h2 : ¬ IBMPMig <:+: text) :
    (attr_check w path).outcome = Outcome.returned 2 := by
  have ht : (find IBMTPS text 0).isSome = true := (find_isSome_iff IBMTPS text 0).mpr h1
  have hp : ¬ (find IBMPMig text 0).isSome = true :=
    fun h => h2 ((find_isSome_iff IBMPMig text 0).mp h)
  rw [attr_check_opened w path file text hf hc, if_pos ht, if_neg hp]

/-- Witness of C1: the vendor stores "IBMTPS" and reports 6 bytes. -/
theorem attr_check_migrated_witness :
    (attr_check (worldOf IBMTPS 6) [47, 97]).outcome = Outcome.returned 2 :=
  attr_check_migrated (worldOf IBMTPS 6) [47, 97] ⟨3⟩ IBMTPS (by decide) (by decide)
    (by decide) (by decide)

/-- C2: when the file opens and the sanitised text contains both "IBMTPS" and "IBMPMig",
wherever they stand, `attr_check` returns 1 (premigrated). -/
theorem attr_check_premigrated (w : World) (path : List Int) (file : FILE) (text : List Int)
    (hf : w.fopen path = some file)
    (hc : clean (fetch w file).buffer (fetch w file).attrSize = some text)
    (h1 : IBMTPS <:+: text) (h2 : IBMPMig <:+: text) :
    (attr_check w path).outcome = Outcome.returned 1 := by
  have ht : (find IBMTPS text 0).isSome = true := (find_isSome_iff IBMTPS text 0).mpr h1
  have hp : (find IBMPMig text 0).isSome = true := (find_isSome_iff IBMPMig text 0).mpr h2
  rw [attr_check_opened w path file text hf hc, if_pos ht, if_pos hp]

/-- Witness of C2: the vendor stores "IBMPMig" followed by "IBMTPS", with a dropped zero
byte in between, and reports 14 bytes. -/
theorem attr_check_premigrated_witness :
    (attr_check (worldOf (IBMPMig ++ 0 :: IBMTPS) 14) [47, 97]).outcome = Outcome.returned 1 :=
  attr_check_premigrated (worldOf (IBMPMig ++ 0 :: IBMTPS) 14) [47, 97] ⟨3⟩
    (IBMPMig ++ IBMTPS) (by decide) (by decide) (by decide) (by decide)

/-- C3: when the file opens and the sanitised text does not contain "IBMTPS", `attr_check`
returns 0 (resident), whether "IBMPMig" occurs or not. -/
theorem attr_check_resident (w : World) (path : List Int) (file : FILE) (text : List Int)
    (hf : w.fopen path = some file)
    (hc : clean (fetch w file).buffer (fetch w file).attrSize = some text)
    (h1 : ¬ IBMTPS <:+: text) :
    (attr_check w path).outcome = Outcome.returned 0 := by
  have ht : ¬ (find IBMTPS text 0).isSome = true :=
    fun h => h1 ((find_isSome_iff IBMTPS text 0).mp h)
  rw [attr_check_opened w path file text hf hc, if_neg ht]

/-- Witness of C3: an attribute blob with neither marker ("abc"). -/
theorem attr_check_resident_witness :
    (attr_check (worldOf [97, 98, 99] 3) [47, 97]).outcome = Outcome.returned 0 :=
  attr_check_resident (worldOf [97, 98, 99] 3) [47, 97] ⟨3⟩ [97, 98, 99] (by decide)
    (by decide) (by decide)

/-! ## The sanitiser -/

/-- C4: for a length `L` within the buffer, `clean(B, L)` is the list got from `B[0..L)` by
deleting each byte that is neither printable nor 0x01 and writing `|` for each 0x01,
printable bytes unchanged; it has one byte per printable-or-0x01 input byte. -/
theorem clean_refines_cleanSpec (B : List Int) (L : Nat) (hL : L ≤ B.length) :
    clean B (L : Int) = some (cleanSpec B L) ∧
      (cleanSpec B L).length = (B.take L).countP (fun c => isprint c || c == 1) := by
  refine ⟨clean_eq_cleanSpec B L hL, ?_⟩
  unfold cleanSpec
  rw [List.length_map, List.countP_eq_length_filter]

/-- Witness of C4: of the six bytes 'I', 0x01, 0x00, 200, -3, 'B' the output is "I|B". -/
theorem clean_refines_cleanSpec_witness :
    clean [73, 1, 0, 200, -3, 66, 67] ((6 : Nat) : Int)
        = some (cleanSpec [73, 1, 0, 200, -3, 66, 67] 6) ∧
      (cleanSpec [73, 1, 0, 200, -3, 66, 67] 6).length
        = (List.take 6 [73, 1, 0, 200, -3, 66, 67]).countP (fun c => isprint c || c == 1) :=
  clean_refines_cleanSpec [73, 1, 0, 200, -3, 66, 67] 6 (by decide)

/-- C5: for a length `L` within the buffer, every element of `clean(B, L)` is printable or
is `|`, the output is a subsequence, in order, of `B[0..L)` with 0x01 rewritten to `|`, and it
has at most `L` elements. -/
theorem clean_output_shape (B : List Int) (L : Nat) (hL : L ≤ B.length) :
    ∃ out, clean B (L : Int) = some out ∧
      (∀ c ∈ out, isprint c = true ∨ c = bar) ∧
      out.Sublist ((B.take L).map (fun c => if c = 1 then bar else c)) ∧
      out.length ≤ L := by
  refine ⟨cleanSpec B L, clean_eq_cleanSpec B L hL, mem_cleanSpec B L, ?_,
    cleanSpec_length_le B L⟩
  unfold cleanSpec
  exact (List.filter_sublist _).map _

/-- Witness of C5 on the seven-byte buffer 'I', 0x01, 0x00, 200, -3, 'B', 'C' with `L = 6`. -/
theorem clean_output_shape_witness :
    ∃ out, clean [73, 1, 0, 200, -3, 66, 67] ((6 : Nat) : Int) = some out ∧
      (∀ c ∈ out, isprint c = true ∨ c = bar) ∧
      out.Sublist ((List.take 6 [73, 1, 0, 200, -3, 66, 67]).map
        (fun c => if c = 1 then bar else c)) ∧
      out.length ≤ 6 :=
  clean_output_shape [73, 1, 0, 200, -3, 66, 67] 6 (by decide)

/-- C6: if `B[i] = 0x01` for an index `i < L`, `L` within the buffer, then `clean(B, L)` has
`|` at index `k`, the number of indices `j < i` whose byte `B[j]` is printable or 0x01. -/
theorem clean_bar_at_kept_count (B : List Int) (L i : Nat) (hL : L ≤ B.length) (hi : i < L)
    (hB : B[i]? = some 1) :
    ∃ out, clean B (L : Int) = some out ∧
      out[((List.range i).filter
        (fun j => (B[j]?).any (fun c => isprint c || c == 1))).length]? = some bar := by
  refine ⟨cleanSpec B L, clean_eq_cleanSpec B L hL, ?_⟩
  rw [count_range (fun c => isprint c || c == 1) B i (by omega)]
  have hiB : i < B.length := by omega
  have hBi : B[i] = 1 := by
    rw [List.getElem?_eq_getElem hiB] at hB
    exact Option.some.inj hB
  have hlen : i < (B.take L).length := by
    rw [List.length_take]; omega
  have hsplit : B.take L = B.take i ++ 1 :: (B.take L).drop (i + 1) := by
    have h1 := List.take_append_drop i (B.take L)
    rw [List.take_take, Nat.min_eq_left (by omega), List.drop_eq_getElem_cons hlen,
      List.getElem_take, hBi] at h1
    exact h1.symm
  unfold cleanSpec
  rw [hsplit, List.filter_append, List.map_append,
    List.getElem?_append_right (by rw [List.length_map]), List.length_map, Nat.sub_self]
  simp [List.filter_cons, isprint_one]

/-- Witness of C6: in 0x00, 'I', 0x01, 'B' the byte 0x01 at index 2 has one kept byte before
it, and the output "I|B" has `|` at index 1. -/
theorem clean_bar_at_kept_count_witness :
    ∃ out, clean [0, 73, 1, 66] ((4 : Nat) : Int) = some out ∧
      out[((List.range 2).filter
        (fun j => (([0, 73, 1, 66] : List Int)[j]?).any
          (fun c => isprint c || c == 1))).length]? = some bar :=
  clean_bar_at_kept_count [0, 73, 1, 66] 4 2 (by decide) (by decide) (by decide)

/-! ## Resident and the two markers -/

/-- C7, as stated, fails: with the attribute text "IBMPMig" the file opens, the sanitised
text contains the marker "IBMPMig", and `attr_check` returns 0; so "returns 0 if and only if
neither marker occurs" is false. -/
theorem resident_iff_neither_marker_fails :
    ¬ (∀ (w : World) (path : List Int) (file : FILE) (text : List Int),
        w.fopen path = some file →
        clean (fetch w file).buffer (fetch w file).attrSize = some text →
        ((attr_check w path).outcome = Outcome.returned 0 ↔
          (¬ IBMTPS <:+: text ∧ ¬ IBMPMig <:+: text))) := by
  intro h
  have hiff := h (worldOf IBMPMig 7) [47, 97] ⟨3⟩ IBMPMig (by decide) (by decide)
  have h0 : (attr_check (worldOf IBMPMig 7) [47, 97]).outcome = Outcome.returned 0 := by
    decide
  exact (hiff.mp h0).2 (by decide)

/-- C7, amended: when the file opens, `attr_check` returns 0 if and only if the sanitised
text does not contain "IBMTPS" (whether "IBMPMig" occurs or not), 1 if and only if it
contains both markers, and 2 if and only if it contains "IBMTPS" and not "IBMPMig"; the
three cases exclude one another. -/
theorem attr_check_code_iff (w : World) (path : List Int) (file : FILE) (text : List Int)
    (hf : w.fopen path = some file)
    (hc : clean (fetch w file).buffer (fetch w file).attrSize = some text) :
    ((attr_check w path).outcome = Outcome.returned 0 ↔ ¬ IBMTPS <:+: text) ∧
    ((attr_check w path).outcome = Outcome.returned 1 ↔
      (IBMTPS <:+: text ∧ IBMPMig <:+: text)) ∧
    ((attr_check w path).outcome = Outcome.returned 2 ↔
      (IBMTPS <:+: text ∧ ¬ IBMPMig <:+: text)) := by
  rw [attr_check_opened w path file text hf hc]
  by_cases h1 : IBMTPS <:+: text
  · have ht : (find IBMTPS text 0).isSome = true := (find_isSome_iff IBMTPS text 0).mpr h1
    by_cases h2 : IBMPMig <:+: text
    · have hp : (find IBMPMig text 0).isSome = true :=
        (find_isSome_iff IBMPMig text 0).mpr h2
      simp [ht, hp, h1, h2]
    · have hp : ¬ (find IBMPMig text 0).isSome = true :=
        fun h => h2 ((find_isSome_iff IBMPMig text 0).mp h)
      simp [ht, hp, h1, h2]
  · have ht : ¬ (find IBMTPS text 0).isSome = true :=
      fun h => h1 ((find_isSome_iff IBMTPS text 0).mp h)
    simp [ht, h1]

/-- Witness of the amended C7 at the attribute text "IBMPMig". -/
theorem attr_check_code_iff_witness :
    ((attr_check (worldOf IBMPMig 7) [47, 97]).outcome = Outcome.returned 0 ↔
      ¬ IBMTPS <:+: IBMPMig) ∧
    ((attr_check (worldOf IBMPMig 7) [47, 97]).outcome = Outcome.returned 1 ↔
      (IBMTPS <:+: IBMPMig ∧ IBMPMig <:+: IBMPMig)) ∧
    ((attr_check (worldOf IBMPMig 7) [47, 97]).outcome = Outcome.returned 2 ↔
      (IBMTPS <:+: IBMPMig ∧ ¬ IBMPMig <:+: IBMPMig)) :=
  attr_check_code_iff (worldOf IBMPMig 7) [47, 97] ⟨3⟩ IBMPMig (by decide) (by decide)

/-! ## The file handle -/

/-- When the open fails, `attr_check` passes the null handle to `fileno`. -/
theorem attr_check_fopen_none (w : World) (path : List Int) (hf : w.fopen path = none) :
    attr_check w path
      = ⟨Outcome.nullDeref, [Call.fopen path none, Call.calloc 1024 1, Call.fileno none]⟩ := by
  unfold attr_check
  simp only [hf, List.cons_append, List.nil_append]

/-- When the open succeeds and a code 1 or 2 is returned, no `fclose` was called; when 0 is
returned, `fclose` was called once. -/
theorem fcloseCount_attr_check (w : World) (path : List Int) (file : FILE) (text : List Int)
    (hf : w.fopen path = some file)
    (hc : clean (fetch w file).buffer (fetch w file).attrSize = some text) :
    fcloseCount (attr_check w path).calls
      = if (attr_check w path).outcome = Outcome.returned 0 then 1 else 0 := by
  rw [attr_check_opened w path file text hf hc]
  by_cases ht : (find IBMTPS text 0).isSome = true
  · by_cases hp : (find IBMPMig text 0).isSome = true
    · simp [ht, hp, fcloseCount]
    · simp [ht, hp, fcloseCount]
  · simp [ht, fcloseCount]

/-- C8, the code at the failing inputs: with the attribute text "IBMTPS" the file opens and
`attr_check` returns 2 having made no `fclose` call; with "IBMTPS" and "IBMPMig" it returns 1
having made no `fclose` call; only the return of 0 (text "abc") is preceded by one `fclose`. -/
theorem attr_check_returns_without_fclose :
    attr_check (worldOf IBMTPS 6) [47, 97]
        = ⟨Outcome.returned 2, [Call.fopen [47, 97] (some ⟨3⟩), Call.calloc 1024 1,
            Call.fileno (some ⟨3⟩), Call.gpfs_fgetattrs 3]⟩ ∧
      fcloseCount (attr_check (worldOf IBMTPS 6) [47, 97]).calls = 0 ∧
      (attr_check (worldOf (IBMTPS ++ IBMPMig) 13) [47, 97]).outcome = Outcome.returned 1 ∧
      fcloseCount (attr_check (worldOf (IBMTPS ++ IBMPMig) 13) [47, 97]).calls = 0 ∧
      (attr_check (worldOf [97, 98, 99] 3) [47, 97]).outcome = Outcome.returned 0 ∧
      fcloseCount (attr_check (worldOf [97, 98, 99] 3) [47, 97]).calls = 1 := by
  decide

/-- C9, the code at the failing input: when `fopen` yields no handle, `attr_check` calls
`fileno` on the null handle and ends there (a null dereference); it returns nothing. -/
theorem attr_check_null_handle :
    attr_check worldNoFile [47, 110, 111]
      = ⟨Outcome.nullDeref,
          [Call.fopen [47, 110, 111] none, Call.calloc 1024 1, Call.fileno none]⟩ := by
  decide

/-! ## Reads of the sanitiser -/

/-- C10: `clean(B, L)` depends only on the first `L` bytes.  Two buffers of at least `L`
bytes that agree on the indices below `L` give the same output; and no index from `L` on is
read, for `clean` succeeds, with the same output, on the block cut down to its first `L`
bytes, where a read at index `L` or beyond is a read outside the block (as the last part
shows for one more iteration). -/
theorem clean_depends_on_first (B1 B2 : List Int) (L : Nat) (h1 : L ≤ B1.length)
    (h2 : L ≤ B2.length) (hag : ∀ i, i < L → B1[i]? = B2[i]?) :
    clean B1 (L : Int) = clean B2 (L : Int) ∧
      clean (B1.take L) (L : Int) = clean B1 (L : Int) ∧
      (clean (B1.take L) (L : Int)).isSome = true ∧
      clean (B1.take L) ((L + 1 : Nat) : Int) = none := by
  have htake : B1.take L = B2.take L := by
    apply List.ext_getElem?
    intro i
    by_cases hi : i < L
    · rw [List.getElem?_take_of_lt hi, List.getElem?_take_of_lt hi, hag i hi]
    · rw [List.getElem?_eq_none (by rw [List.length_take]; omega),
        List.getElem?_eq_none (by rw [List.length_take]; omega)]
  have hlen : (B1.take L).length = L := by rw [List.length_take]; omega
  have hcut : clean (B1.take L) (L : Int) = some (cleanSpec B1 L) := by
    rw [clean_eq_cleanSpec (B1.take L) L (by omega), cleanSpec_take]
  refine ⟨?_, ?_, ?_, ?_⟩
  · rw [clean_eq_cleanSpec B1 L h1, clean_eq_cleanSpec B2 L h2]
    unfold cleanSpec
    rw [htake]
  · rw [hcut, clean_eq_cleanSpec B1 L h1]
  · rw [hcut]; rfl
  · unfold clean
    rw [Int.toNat_ofNat]
    exact cleanLoop_none (B1.take L) (L + 1) 0 [] (by omega) (by omega)

/-- Witness of C10: two buffers that agree on their first three bytes and differ after. -/
theorem clean_depends_on_first_witness :
    clean [73, 1, 66, 67, 68] ((3 : Nat) : Int) = clean [73, 1, 66, 1] ((3 : Nat) : Int) ∧
      clean (List.take 3 [73, 1, 66, 67, 68]) ((3 : Nat) : Int)
        = clean [73, 1, 66, 67, 68] ((3 : Nat) : Int) ∧
      (clean (List.take 3 [73, 1, 66, 67, 68]) ((3 : Nat) : Int)).isSome = true ∧
      clean (List.take 3 [73, 1, 66, 67, 68]) ((3 + 1 : Nat) : Int) = none :=
  clean_depends_on_first [73, 1, 66, 67, 68] [73, 1, 66, 1] 3 (by decide) (by decide)
    (by decide)

/-! ## Totality -/

/-- For a length within the block the loop of `clean` ends and reads inside the block. -/
theorem clean_isSome (B : List Int) (L : Nat) (hL : L ≤ B.length) :
    (clean B (L : Int)).isSome = true := by
  rw [clean_eq_cleanSpec B L hL]
  rfl

/-- A `size` that is zero or negative runs no iteration. -/
theorem clean_nonpos (B : List Int) (size : Int) (h : size ≤ 0) : clean B size = some [] := by
  unfold clean
  rw [Int.toNat_eq_zero.mpr h]
  rfl

/-- For a `size` within the block, `clean` gives the sanitised first `size` chars. -/
theorem clean_of_le (B : List Int) (size : Int) (h : size.toNat ≤ B.length) :
    clean B size = some (cleanSpec B size.toNat) := by
  unfold clean
  rw [cleanLoop_eq B size.toNat 0 [] (by omega)]
  simp

/-- C11: `clean` is total.  For every length `L` and every buffer of at least `L` chars of
any value (the negative ones, which bytes from 0x80 on are as signed `char`, included) the
loop ends and yields an output, with no read outside the buffer; for `L = 0` the output is
empty. -/
theorem clean_total (B : List Int) (L : Nat) (hL : L ≤ B.length) :
    (∃ out, clean B (L : Int) = some out) ∧ clean B 0 = some [] :=
  ⟨⟨cleanSpec B L, clean_eq_cleanSpec B L hL⟩, clean_nonpos B 0 (le_refl 0)⟩

/-- Witness of C11: the bytes 0x80, 0xFF, 0x01, 'A', 0x7F read as signed `char`, that is
-128, -1, 1, 65, 127, with `L = 4`. -/
theorem clean_total_witness :
    (∃ out, clean [signedChar 0x80, signedChar 0xFF, signedChar 0x01, signedChar 0x41,
        signedChar 0x7F] ((4 : Nat) : Int) = some out) ∧
      clean [signedChar 0x80, signedChar 0xFF, signedChar 0x01, signedChar 0x41,
        signedChar 0x7F] 0 = some [] :=
  clean_total [signedChar 0x80, signedChar 0xFF, signedChar 0x01, signedChar 0x41,
    signedChar 0x7F] 4 (by decide)

/-! ## The reported attribute size -/

/-- A `size` beyond the block makes the loop of `clean` read outside the block. -/
theorem clean_none (B : List Int) (size : Int) (h : B.length < size.toNat) :
    clean B size = none := by
  unfold clean
  exact cleanLoop_none B size.toNat 0 [] (by omega) (by omega)

/-- When the file opens and the vendor call reports more bytes than the buffer holds,
`attr_check` passes that size to `clean` unchecked, which reads outside the buffer. -/
theorem attr_check_outOfBounds (w : World) (path : List Int) (file : FILE)
    (hf : w.fopen path = some file)
    (h : (fetch w file).buffer.length < (fetch w file).attrSize.toNat) :
    attr_check w path
      = ⟨Outcome.outOfBounds, [Call.fopen path (some file), Call.calloc 1024 1,
          Call.fileno (some file), Call.gpfs_fgetattrs file.fd]⟩ := by
  have hc := clean_none (fetch w file).buffer (fetch w file).attrSize h
  unfold fetch at hc
  unfold attr_check
  simp only [hf, hc, List.nil_append, List.cons_append]

/-- C12, the code at the failing input: the attributes need 2000 bytes, the vendor call
fails and reports 2000 through `attrSizeP`; `attr_check` runs `clean(buffer, 2000)` on the
1024-byte buffer with no check of the size, and the loop reads index 1024, outside the
buffer.  Up to size 1024 the reads stay inside the buffer; 1025 is already too much. -/
theorem attr_check_reads_past_buffer :
    attr_check (worldTooSmall 2000) [47, 97]
        = ⟨Outcome.outOfBounds, [Call.fopen [47, 97] (some ⟨3⟩), Call.calloc 1024 1,
            Call.fileno (some ⟨3⟩), Call.gpfs_fgetattrs 3]⟩ ∧
      (fetch (worldTooSmall 2000) ⟨3⟩).buffer.length = 1024 ∧
      (fetch (worldTooSmall 2000) ⟨3⟩).attrSize = 2000 ∧
      (clean (List.replicate 1024 0) ((1024 : Nat) : Int)).isSome = true ∧
      clean (List.replicate 1024 0) 1025 = none := by
  have hlen : (fetch (worldTooSmall 2000) ⟨3⟩).buffer.length = 1024 := by
    simp [fetch, worldTooSmall]
  refine ⟨attr_check_outOfBounds (worldTooSmall 2000) [47, 97] ⟨3⟩ rfl ?_, hlen, rfl,
    clean_isSome _ 1024 (by simp), clean_none _ 1025 (by simp)⟩
  rw [hlen]
  decide

/-! ## What the returned code depends on -/

/-- How `attr_check` ends once the file is open: a function of the buffer contents and the
`attrSize` left by the vendor call alone. -/
theorem attr_check_outcome (w : World) (path : List Int) (file : FILE)
    (hf : w.fopen path = some file) :
    (attr_check w path).outcome =
      match clean (fetch w file).buffer (fetch w file).attrSize with
      | none => Outcome.outOfBounds
      | some text =>
        if (find IBMTPS text 0).isSome then
          if (find IBMPMig text 0).isSome then Outcome.returned 1 else Outcome.returned 2
        else Outcome.returned 0 := by
  cases hc : clean (fetch w file).buffer (fetch w file).attrSize with
  | none =>
    unfold fetch at hc
    unfold attr_check
    simp only [hf, hc]
  | some text =>
    rw [attr_check_opened w path file text hf hc]
    by_cases ht : (find IBMTPS text 0).isSome = true
    · by_cases hp : (find IBMPMig text 0).isSome = true
      · rw [if_pos ht, if_pos hp]
        show Outcome.returned 1 = if _ then (if _ then _ else _) else _
        rw [if_pos ht, if_pos hp]
      · rw [if_pos ht, if_neg hp]
        show Outcome.returned 2 = if _ then (if _ then _ else _) else _
        rw [if_pos ht, if_neg hp]
    · rw [if_neg ht]
      show Outcome.returned 0 = if _ then (if _ then _ else _) else _
      rw [if_neg ht]

/-- Once both files are open, equal buffer contents and equal `attrSize` make the two runs
end the same way. -/
theorem attr_check_outcome_congr (w1 w2 : World) (path1 path2 : List Int) (file1 file2 : FILE)
    (hf1 : w1.fopen path1 = some file1) (hf2 : w2.fopen path2 = some file2)
    (hbuf : (fetch w1 file1).buffer = (fetch w2 file2).buffer)
    (hsize : (fetch w1 file1).attrSize = (fetch w2 file2).attrSize) :
    (attr_check w1 path1).outcome = (attr_check w2 path2).outcome := by
  rw [attr_check_outcome w1 path1 file1 hf1, attr_check_outcome w2 path2 file2 hf2, hbuf, hsize]

/-- Once the file is open and `attrSize` is within the buffer, `attr_check` returns one of
the codes 0, 1, 2. -/
theorem attr_check_returns (w : World) (path : List Int) (file : FILE)
    (hf : w.fopen path = some file)
    (hb : (fetch w file).attrSize.toNat ≤ (fetch w file).buffer.length) :
    ∃ code : Int, (attr_check w path).outcome = Outcome.returned code := by
  rw [attr_check_outcome w path file hf, clean_of_le _ _ hb]
  by_cases ht : (find IBMTPS (cleanSpec (fetch w file).buffer (fetch w file).attrSize.toNat)
      0).isSome = true
  · by_cases hp : (find IBMPMig (cleanSpec (fetch w file).buffer
        (fetch w file).attrSize.toNat) 0).isSome = true
    · exact ⟨1, by simp only [ht, hp, if_true]⟩
    · exact ⟨2, by simp only [ht, hp, if_true]; rfl⟩
  · exact ⟨0, by simp only [ht]; rfl⟩

/-- In range, the code is a function of the buffer and `attrSize`: two invocations of
`attr_check` in which the open succeeds and the vendor call leaves the same buffer contents
and the same `attrSize`, this `attrSize` being within the buffer, return the same code. -/
theorem attr_check_same_code (w1 w2 : World) (path1 path2 : List Int) (file1 file2 : FILE)
    (hf1 : w1.fopen path1 = some file1) (hf2 : w2.fopen path2 = some file2)
    (hbuf : (fetch w1 file1).buffer = (fetch w2 file2).buffer)
    (hsize : (fetch w1 file1).attrSize = (fetch w2 file2).attrSize)
    (hb : (fetch w1 file1).attrSize ≤ ((fetch w1 file1).buffer.length : Int)) :
    ∃ code : Int, (attr_check w1 path1).outcome = Outcome.returned code ∧
      (attr_check w2 path2).outcome = Outcome.returned code := by
  obtain ⟨code, h1⟩ := attr_check_returns w1 path1 file1 hf1 (by omega)
  refine ⟨code, h1, ?_⟩
  rw [← attr_check_outcome_congr w1 w2 path1 path2 file1 file2 hf1 hf2 hbuf hsize]
  exact h1

theorem cleanSpec_replicate_zero (n : Nat) : cleanSpec (List.replicate n 0) n = [] := by
  unfold cleanSpec
  rw [List.map_eq_nil_iff, List.filter_eq_nil_iff]
  intro a ha
  rw [List.eq_of_mem_replicate (List.mem_of_mem_take ha)]
  decide

/-- Over a zeroed block of `n` chars followed by the chars `after`, `clean` of all
`n + |after|` chars gives the sanitised `after`. -/
theorem clean_zero_block_then (n : Nat) (after : List Int) :
    clean (List.replicate n 0 ++ after) ((n + after.length : Nat) : Int)
      = some (cleanSpec after after.length) := by
  rw [clean_eq_cleanSpec _ _ (by simp),
    cleanSpec_of_take_eq _ _ (List.replicate n 0) after
      (List.take_of_length_le (by simp)),
    List.length_replicate, cleanSpec_replicate_zero, List.nil_append]

/-- C13, the code at the failing input: the vendor call leaves the zeroed 1024-byte buffer and
`attrSize = 2000`.  The open succeeds, yet `attr_check` returns no code fixed by the buffer
contents and `attrSize`: `clean` reads past the buffer.  What the loop then sees is whatever
follows the block: over the same zeroed 1024 chars and 1030 iterations it yields "IBMTPS" when
these six chars follow and nothing when six zero bytes follow. -/
theorem attr_check_code_not_fixed_past_buffer :
    (worldTooSmall 2000).fopen [47, 97] = some ⟨3⟩ ∧
      (fetch (worldTooSmall 2000) ⟨3⟩).buffer = List.replicate 1024 0 ∧
      (fetch (worldTooSmall 2000) ⟨3⟩).attrSize = 2000 ∧
      (attr_check (worldTooSmall 2000) [47, 97]).outcome = Outcome.outOfBounds ∧
      (¬ ∃ code : Int,
        (attr_check (worldTooSmall 2000) [47, 97]).outcome = Outcome.returned code) ∧
      clean (List.replicate 1024 0 ++ IBMTPS) ((1024 + IBMTPS.length : Nat) : Int)
        = some IBMTPS ∧
      clean (List.replicate 1024 0 ++ [0, 0, 0, 0, 0, 0])
        ((1024 + ([0, 0, 0, 0, 0, 0] : List Int).length : Nat) : Int) = some [] := by
  have hlen : (fetch (worldTooSmall 2000) ⟨3⟩).buffer.length = 1024 := by
    simp [fetch, worldTooSmall]
  have hout := attr_check_outOfBounds (worldTooSmall 2000) [47, 97] ⟨3⟩ rfl
    (by rw [hlen]; decide)
  refine ⟨rfl, rfl, rfl, by rw [hout], ?_, ?_, ?_⟩
  · rintro ⟨code, hcode⟩
    rw [hout] at hcode
    exact Outcome.noConfusion hcode
  · rw [clean_zero_block_then 1024 IBMTPS]
    rfl
  · rw [clean_zero_block_then 1024 [0, 0, 0, 0, 0, 0]]
    rfl

/-- C14: the status code `rc` of the vendor call has no effect on `attr_check`: replacing it
by any value leaves the whole run, the returned code included, unchanged; and when the fetch
leaves the zeroed buffer untouched and `attrSize = 0`, the code returned is 0 (resident),
whatever `rc` says. -/
theorem attr_check_ignores_rc (w : World) (path : List Int) (file : FILE)
    (hf : w.fopen path = some file) :
    (∀ rc : Int, attr_check (withRc w rc) path = attr_check w path) ∧
      ((fetch w file).buffer = List.replicate 1024 0 → (fetch w file).attrSize = 0 →
        ∀ rc : Int, (attr_check (withRc w rc) path).outcome = Outcome.returned 0) := by
  have hsame : ∀ rc : Int, attr_check (withRc w rc) path = attr_check w path := fun _ => rfl
  refine ⟨hsame, ?_⟩
  intro hbuf hsize rc
  have hc : clean (fetch w file).buffer (fetch w file).attrSize = some [] := by
    rw [hsize]
    exact clean_nonpos _ 0 (le_refl 0)
  have ht : ¬ (find IBMTPS [] 0).isSome = true := by decide
  rw [hsame rc, attr_check_opened w path file [] hf hc, if_neg ht]

/-- Witness of C14: the vendor call fails with -1 and touches nothing; the run is the same as
with status 0, and the code returned is 0. -/
theorem attr_check_ignores_rc_witness :
    attr_check (withRc (worldFetchFails (-1)) 0) [47, 97]
        = attr_check (worldFetchFails (-1)) [47, 97] ∧
      (fetch (worldFetchFails (-1)) ⟨3⟩).rc = -1 ∧
      (attr_check (withRc (worldFetchFails (-1)) (-1)) [47, 97]).outcome = Outcome.returned 0 :=
  ⟨(attr_check_ignores_rc (worldFetchFails (-1)) [47, 97] ⟨3⟩ rfl).1 0, rfl,
    (attr_check_ignores_rc (worldFetchFails (-1)) [47, 97] ⟨3⟩ rfl).2 rfl rfl (-1)⟩

/-! ## Markers through the sanitiser -/

theorem cleanSpec_printable :
    ∀ m : List Int, (∀ c ∈ m, isprint c = true) → cleanSpec m m.length = m
  | [], _ => rfl
  | a :: m, h => by
    have ha : isprint a = true := h a (List.mem_cons_self a m)
    have ha1 : a ≠ 1 := by
      intro h1
      rw [h1, isprint_one] at ha
      exact Bool.noConfusion ha
    have ih := cleanSpec_printable m (fun c hc => h c (List.mem_cons_of_mem a hc))
    unfold cleanSpec at ih ⊢
    rw [List.take_length] at ih ⊢
    rw [filter_map_cons, ih]
    simp [emit, ha, ha1]

/-- A run of printable bytes inside `B[0..L)` stands unchanged inside the sanitised text. -/
theorem infix_cleanSpec (B : List Int) (L : Nat) (m : List Int)
    (hm : ∀ c ∈ m, isprint c = true) (hin : m <:+: B.take L) : m <:+: cleanSpec B L := by
  obtain ⟨s, t, hst⟩ := hin
  rw [cleanSpec_of_take_eq B L (s ++ m) t hst.symm,
    cleanSpec_of_take_eq (s ++ m) (s ++ m).length s m (List.take_length _),
    cleanSpec_printable m hm]
  exact ⟨_, _, rfl⟩

/-- C15: sanitising never hides a marker.  If the printable byte string `m` occurs as a
contiguous run in `B[0..L)`, `L` within the buffer, it occurs in `clean(B, L)`; hence when
the first `attrSize` raw bytes of the vendor's buffer contain "IBMTPS", `attr_check` does not
return 0: it returns 1 or 2. -/
theorem clean_keeps_marker (B : List Int) (L : Nat) (m : List Int) (hL : L ≤ B.length)
    (hm : ∀ c ∈ m, isprint c = true) (hin : m <:+: B.take L) :
    (∃ out, clean B (L : Int) = some out ∧ m <:+: out) ∧
      (m = IBMTPS → ∀ (w : World) (path : List Int) (file : FILE),
        w.fopen path = some file → (fetch w file).buffer = B →
        (fetch w file).attrSize = (L : Int) →
        (attr_check w path).outcome ≠ Outcome.returned 0 ∧
          ((attr_check w path).outcome = Outcome.returned 1 ∨
            (attr_check w path).outcome = Outcome.returned 2)) := by
  have hout : m <:+: cleanSpec B L := infix_cleanSpec B L m hm hin
  refine ⟨⟨cleanSpec B L, clean_eq_cleanSpec B L hL, hout⟩, ?_⟩
  intro hmark w path file hf hbuf hsize
  have hc : clean (fetch w file).buffer (fetch w file).attrSize = some (cleanSpec B L) := by
    rw [hbuf, hsize]
    exact clean_eq_cleanSpec B L hL
  have ht : (find IBMTPS (cleanSpec B L) 0).isSome = true :=
    (find_isSome_iff IBMTPS (cleanSpec B L) 0).mpr (hmark ▸ hout)
  rw [attr_check_opened w path file (cleanSpec B L) hf hc, if_pos ht]
  by_cases hp : (find IBMPMig (cleanSpec B L) 0).isSome = true
  · rw [if_pos hp]
    exact ⟨fun h => Outcome.noConfusion h (fun h10 => absurd h10 (by decide)), Or.inl rfl⟩
  · rw [if_neg hp]
    exact ⟨fun h => Outcome.noConfusion h (fun h20 => absurd h20 (by decide)), Or.inr rfl⟩

/-- Witness of C15: "IBMTPS" between a byte 0x01 and a zero byte, in the world whose vendor
call stores these eight bytes. -/
theorem clean_keeps_marker_witness :
    (∃ out, clean (fetch (worldOf (1 :: IBMTPS ++ [0]) 8) ⟨3⟩).buffer ((8 : Nat) : Int) = some out ∧
        IBMTPS <:+: out) ∧
      (attr_check (worldOf (1 :: IBMTPS ++ [0]) 8) [47, 97]).outcome ≠ Outcome.returned 0 ∧
      ((attr_check (worldOf (1 :: IBMTPS ++ [0]) 8) [47, 97]).outcome = Outcome.returned 1 ∨
        (attr_check (worldOf (1 :: IBMTPS ++ [0]) 8) [47, 97]).outcome = Outcome.returned 2) :=
  ⟨(clean_keeps_marker (fetch (worldOf (1 :: IBMTPS ++ [0]) 8) ⟨3⟩).buffer 8 IBMTPS
      (by simp [fetch, worldOf, IBMTPS]) (by decide) (by decide)).1,
    (clean_keeps_marker (fetch (worldOf (1 :: IBMTPS ++ [0]) 8) ⟨3⟩).buffer 8 IBMTPS
      (by simp [fetch, worldOf, IBMTPS]) (by decide) (by decide)).2 rfl
      (worldOf (1 :: IBMTPS ++ [0]) 8) [47, 97] ⟨3⟩ rfl rfl rfl⟩

/-- C16: sanitising can create a marker.  The first 7 raw bytes 'I', 'B', 'M', 0x00, 'T',
'P', 'S' of the buffer do not contain "IBMTPS", the zero byte is dropped, the sanitised text
is "IBMTPS", and `attr_check` returns 2. -/
theorem attr_check_marker_created :
    (fetch (worldOf [73, 66, 77, 0, 84, 80, 83] 7) ⟨3⟩).attrSize = 7 ∧
      ¬ IBMTPS <:+: List.take 7 (fetch (worldOf [73, 66, 77, 0, 84, 80, 83] 7) ⟨3⟩).buffer ∧
      clean (fetch (worldOf [73, 66, 77, 0, 84, 80, 83] 7) ⟨3⟩).buffer 7 = some IBMTPS ∧
      (attr_check (worldOf [73, 66, 77, 0, 84, 80, 83] 7) [47, 97]).outcome
        = Outcome.returned 2 := by
  decide

/-- C17: `clean` distributes over concatenation, `clean(X ++ Y, |X| + |Y|)` being
`clean(X, |X|)` followed by `clean(Y, |Y|)`; and for lengths `K ≤ L` within the buffer,
`clean(B, K)` is an initial segment of `clean(B, L)`. -/
theorem clean_append_and_initial (X Y B : List Int) (K L : Nat) (hKL : K ≤ L)
    (hL : L ≤ B.length) :
    (∃ x y, clean X (X.length : Int) = some x ∧ clean Y (Y.length : Int) = some y ∧
        clean (X ++ Y) ((X.length + Y.length : Nat) : Int) = some (x ++ y)) ∧
      (∃ a b, clean B (K : Int) = some a ∧ clean B (L : Int) = some b ∧ a <+: b) := by
  constructor
  · refine ⟨cleanSpec X X.length, cleanSpec Y Y.length, clean_eq_cleanSpec X _ (le_refl _),
      clean_eq_cleanSpec Y _ (le_refl _), ?_⟩
    rw [clean_eq_cleanSpec (X ++ Y) _ (by rw [List.length_append]),
      cleanSpec_of_take_eq (X ++ Y) (X.length + Y.length) X Y
        (by rw [← List.length_append, List.take_length])]
  · refine ⟨cleanSpec B K, cleanSpec B L, clean_eq_cleanSpec B K (by omega),
      clean_eq_cleanSpec B L hL, ?_⟩
    have hsplit : B.take L = B.take K ++ (B.take L).drop K := by
      have h := List.take_append_drop K (B.take L)
      rw [List.take_take, Nat.min_eq_left hKL] at h
      exact h.symm
    have hK : cleanSpec (B.take K) (B.take K).length = cleanSpec B K := by
      rw [List.length_take, Nat.min_eq_left (by omega), cleanSpec_take]
    rw [cleanSpec_of_take_eq B L _ _ hsplit, hK]
    exact ⟨_, rfl⟩

/-- Witness of C17 on small buffers. -/
theorem clean_append_and_initial_witness :
    (∃ x y, clean [73, 1] (([73, 1] : List Int).length : Int) = some x ∧
        clean [0, 66] (([0, 66] : List Int).length : Int) = some y ∧
        clean ([73, 1] ++ [0, 66])
          ((([73, 1] : List Int).length + ([0, 66] : List Int).length : Nat) : Int)
          = some (x ++ y)) ∧
      (∃ a b, clean [73, 1, 0, 66, 67] ((2 : Nat) : Int) = some a ∧
        clean [73, 1, 0, 66, 67] ((4 : Nat) : Int) = some b ∧ a <+: b) :=
  clean_append_and_initial [73, 1] [0, 66] [73, 1, 0, 66, 67] 2 4 (by decide) (by decide)

end AttrCheck
